import Mathlib

/-!
# Verification of the real-time auction service core

A shallow embedding of the auction service's data model and operations,
translated from the Go source:

* domain types (`internal/domain/auction/auction.go`, `internal/domain/bid/bid.go`),
* the OCC bid-admission transaction
  (`internal/adapters/db/bid_repository.go`, `PlaceBidWithOCC`),
* the bid-service precondition cascade (`internal/app/bid.go`, `PlaceBid`),
* auction creation and finalization (`internal/app/auction.go`),
* the expiration worker step (scheduler `endAuction`),
* websocket message validation and the list-auctions page computation
  (`internal/adapters/ws/messages.go`, `internal/adapters/ws/handler.go`),
* the persistent schema's partial index on `auctions(item_id, status)`.

Prices and instants are modelled as `Int`.  The Go code stores prices as
`float64`, but in every path modelled here prices are only copied and
compared, never arithmetically combined; the design notes of the system
explicitly sanction exact integer minor units for this reason, so `Int`
comparisons are a faithful model of the code's comparisons.  UUIDs are
modelled as `Nat`; websocket client ids (strings in Go) as `String`.
The relational tables are modelled as lists of rows; a SQL `UPDATE ... WHERE`
maps every matching row and reports the number of affected rows, and the
transaction wrapper (`ExecuteTransaction`) is modelled by the `Except`
monad: an error leaves the caller's state untouched (rollback), `ok`
returns the committed state.
-/

/-- Auction status, from `internal/domain/auction/auction.go`. -/
inductive AuctionStatus
  | pending
  | active
  | ended
  | cancelled
deriving DecidableEq, Repr

/-- Bid status, from `internal/domain/bid/bid.go`. -/
inductive BidStatus
  | accepted
  | rejected
deriving DecidableEq, Repr

/-- An auction row, from `internal/domain/auction/auction.go` (`Auction`). -/
structure Auction where
  id : Nat
  itemId : Nat
  creatorId : Nat
  startTime : Int
  endTime : Int
  startingPrice : Int
  currentPrice : Int
  status : AuctionStatus
  createdAt : Int
  updatedAt : Int
deriving DecidableEq, Repr

/-- A bid row, from `internal/domain/bid/bid.go` (`Bid`). -/
structure Bid where
  id : Nat
  auctionId : Nat
  userId : Nat
  amount : Int
  status : BidStatus
  createdAt : Int
  updatedAt : Int
deriving DecidableEq, Repr

/-- Source `Auction.IsActive` from the domain package. -/
def Auction.IsActive (a : Auction) : Bool :=
  decide (a.status = AuctionStatus.active)

/-- Source `Auction.IsEnded` from the domain package: only the `ended` status counts. -/
def Auction.IsEnded (a : Auction) : Bool :=
  decide (a.status = AuctionStatus.ended)

/-- Source `Auction.CanBid` from the domain package: the status is `active`. -/
def Auction.CanBid (a : Auction) : Bool :=
  decide (a.status = AuctionStatus.active)

/-- Source `Auction.AuctionStarted`: `a.StartTime.Before(time.Now())`, i.e. strictly
before the supplied current instant. -/
def Auction.AuctionStarted (a : Auction) (now : Int) : Bool :=
  decide (a.startTime < now)

/-- Source `Auction.UpdateCurrentPrice`: raises the price only when the new price is
strictly greater. -/
def Auction.UpdateCurrentPrice (a : Auction) (newPrice now : Int) : Auction :=
  if a.currentPrice < newPrice then
    { a with currentPrice := newPrice, updatedAt := now }
  else a

/-- Source `Auction.EndAuction`: set status `ended` and refresh `updated_at`. -/
def Auction.EndAuction (a : Auction) (now : Int) : Auction :=
  { a with status := AuctionStatus.ended, updatedAt := now }

/-- Source `Bid.IsAccepted` from the domain package. -/
def Bid.IsAccepted (b : Bid) : Bool :=
  decide (b.status = BidStatus.accepted)

/-- Domain errors, from `internal/domain/shared/errors.go`. -/
inductive SvcError
  | AuctionNotFound
  | AuctionAlreadyEnded
  | AuctionNotAcceptingBids
  | InvalidStartTime
  | InvalidEndTime
  | InvalidStartingPrice
  | ItemAlreadyInAuction
  | BidAmountTooLow
  | BidAmountInvalid
  | BidAmountBelowStarting
  | NoBidsFound
  | AuctionNotStarted
  | UserNotFound
  | ItemNotFound
  | InvalidTimeFormat
  | UserNotSubscribed
  | AuctionIDRequired
  | InvalidAmount
  | ItemIDRequired
  | StartTimeRequired
  | EndTimeRequired
  | StartingPriceRequired
  | UnknownMessageType
deriving DecidableEq, Repr

/-- The authoritative store: the `auctions` and `bids` tables as row lists. -/
structure DBState where
  auctions : List Auction
  bids : List Bid
deriving DecidableEq, Repr

/-- Source `SELECT ... FROM auctions WHERE id = $1` (first matching row, as a
primary-key lookup). -/
def findAuction (db : DBState) (aid : Nat) : Option Auction :=
  db.auctions.find? (fun a => a.id == aid)

/-- Source `INSERT INTO bids ...`: append the row. -/
def insertBid (db : DBState) (b : Bid) : DBState :=
  { db with bids := db.bids ++ [b] }

/-- The row transformer of the OCC conditional update
`UPDATE auctions SET current_price = $2, updated_at = $3
 WHERE id = $1 AND current_price = $4`. -/
def condUpdateRow (aid : Nat) (amount ts expected : Int) (a : Auction) : Auction :=
  if a.id == aid && a.currentPrice == expected then
    { a with currentPrice := amount, updatedAt := ts }
  else a

/-- The OCC conditional update: the updated table together with the number of
rows affected (the rows matching the `WHERE` predicate). -/
def conditionalUpdatePrice (db : DBState) (aid : Nat) (amount ts expected : Int) :
    DBState × Nat :=
  ({ db with auctions := db.auctions.map (condUpdateRow aid amount ts expected) },
   db.auctions.countP (fun a => a.id == aid && a.currentPrice == expected))

/-- Source `PlaceBidWithOCC` from `internal/adapters/db/bid_repository.go`: one
transaction that (1) reads `(current_price, status)` for the bid's auction,
failing `AuctionNotFound` when no row exists and `AuctionNotAcceptingBids`
when the status is not `active`; (2) fails `BidAmountTooLow` when the stored
price differs from the expected price; (3) fails `BidAmountTooLow` when the
bid amount is not above the stored price; (4) inserts the bid row; (5) runs
the conditional price update and fails `BidAmountTooLow` when it affects no
row; (6) commits.  An error rolls the transaction back, so the caller's
state is unchanged on every error. -/
def PlaceBidWithOCC (db : DBState) (newBid : Bid) (expectedCurrentPrice : Int) :
    Except SvcError DBState :=
  match findAuction db newBid.auctionId with
  | none => .error .AuctionNotFound
  | some a =>
    if a.status ≠ AuctionStatus.active then .error .AuctionNotAcceptingBids
    else if a.currentPrice ≠ expectedCurrentPrice then .error .BidAmountTooLow
    else if newBid.amount ≤ a.currentPrice then .error .BidAmountTooLow
    else
      let db1 := insertBid db newBid
      let res := conditionalUpdatePrice db1 newBid.auctionId newBid.amount
        newBid.createdAt expectedCurrentPrice
      if res.2 = 0 then .error .BidAmountTooLow
      else .ok res.1

/-- Event types carried on the bus, from `internal/ports/outbound`
(`EventTypeBidPlaced`, `EventTypeAuctionEnded`). -/
inductive EventType
  | BidPlaced
  | AuctionEnded
deriving DecidableEq, Repr

/-- An event published on the bus.  The optional fields model the entries of
the Go event's `Data` map (`bid_id`/`user_id`/`amount` for `BidPlaced`,
`winner_id`/`final_price` for `AuctionEnded`). -/
structure Event where
  type : EventType
  auctionId : Nat
  bidId : Option Nat
  userId : Option Nat
  amount : Option Int
  winnerId : Option Nat
  finalPrice : Option Int
  timestamp : Int
deriving DecidableEq, Repr

/-- The event bus (Redis broadcaster) state: `subs` models the broadcaster's
`clientsToAuction` subscription table as the set of `(auction, client)` pairs
for which `clientsToAuction[client][auction]` is true, and `published` the
sequence of events handed to `Publish`. -/
structure BusState where
  subs : List (Nat × String)
  published : List Event
deriving DecidableEq, Repr

/-- Source `RedisBroadcaster.IsSubscribed`: the `clientsToAuction` lookup. -/
def isSubscribed (bus : BusState) (aid : Nat) (cid : String) : Bool :=
  bus.subs.any (fun p => p.1 == aid && p.2 == cid)

/-- Source `RedisBroadcaster.Subscribe` restricted to the subscription table: when
the client is already subscribed to the auction it returns immediately
without change (already-subscribed is not an error); otherwise it records
the subscription. -/
def subscribeBus (bus : BusState) (aid : Nat) (cid : String) : BusState :=
  if isSubscribed bus aid cid then bus
  else { bus with subs := (aid, cid) :: bus.subs }

/-- Source `RedisBroadcaster.Publish`: append the event to the published sequence. -/
def publishBus (bus : BusState) (e : Event) : BusState :=
  { bus with published := bus.published ++ [e] }

/-- Source `GetHighestBid` from `internal/adapters/db/bid_repository.go`:
`WHERE auction_id = $1 AND status = 'accepted'
 ORDER BY amount DESC, created_at ASC LIMIT 1`.  The fold keeps the earlier
row unless a later row is strictly better in that ordering. -/
def GetHighestBid (db : DBState) (aid : Nat) : Option Bid :=
  (db.bids.filter (fun b => b.auctionId == aid && b.IsAccepted)).foldl
    (fun best b =>
      match best with
      | none => some b
      | some c =>
        if c.amount < b.amount || (c.amount == b.amount && b.createdAt < c.createdAt)
        then some b else some c)
    none

/-- Source `inbound.PlaceBidRequest`. -/
structure PlaceBidRequest where
  auctionId : Nat
  userId : Nat
  clientId : String
  amount : Int
deriving DecidableEq, Repr

/-- The subscription key the bid service uses after a successful admission:
`clientID := newBid.UserID.String()` in `internal/app/bid.go`. -/
def userKey (uid : Nat) : String :=
  toString uid

/-- Source `BidService.PlaceBid` from `internal/app/bid.go`, with the broadcaster
present.  Checks, in source order with first failure winning: subscription of
the request's `client_id`, auction existence, `CanBid`, `AuctionStarted`,
user existence (`users` is the set of provisioned user ids), `amount > 0`,
and the highest-bid / starting-price comparison; then runs the OCC
admission with `expected = auction.CurrentPrice` (the value read above),
subscribes the bidder under `userKey` and publishes the `BidPlaced` event. -/
def PlaceBid (db : DBState) (bus : BusState) (users : List Nat)
    (req : PlaceBidRequest) (now : Int) (newBidId : Nat) :
    Except SvcError (DBState × BusState × Bid) :=
  if isSubscribed bus req.auctionId req.clientId = false then
    .error .UserNotSubscribed
  else
    match findAuction db req.auctionId with
    | none => .error .AuctionNotFound
    | some auction =>
      if auction.CanBid = false then .error .AuctionNotAcceptingBids
      else if auction.AuctionStarted now = false then .error .AuctionNotStarted
      else if users.contains req.userId = false then .error .UserNotFound
      else if req.amount ≤ 0 then .error .BidAmountInvalid
      else
        let highestBid := GetHighestBid db req.auctionId
        if (match highestBid with
            | some hb => decide (req.amount ≤ hb.amount)
            | none => false) then .error .BidAmountTooLow
        else if (match highestBid with
            | none => decide (req.amount ≤ auction.startingPrice)
            | some _ => false) then .error .BidAmountBelowStarting
        else
          let newBid : Bid :=
            ⟨newBidId, req.auctionId, req.userId, req.amount,
             BidStatus.accepted, now, now⟩
          match PlaceBidWithOCC db newBid auction.currentPrice with
          | .error e => .error e
          | .ok db' =>
            let bus1 := subscribeBus bus newBid.auctionId (userKey newBid.userId)
            let event : Event :=
              ⟨EventType.BidPlaced, req.auctionId, some newBid.id,
               some newBid.userId, some newBid.amount, none, none,
               newBid.createdAt⟩
            .ok (db', publishBus bus1 event, newBid)

/-- Source `inbound.CreateAuctionRequest`.  The Go request carries the two instants
as RFC3339 strings which `CreateAuction` parses; here the fields hold the
parse result, `none` standing for an unparseable string. -/
structure CreateAuctionRequest where
  itemId : Nat
  creatorId : Nat
  startTime : Option Int
  endTime : Option Int
  startingPrice : Int
deriving DecidableEq, Repr

/-- Source `GetActiveByItemID` from `internal/adapters/db/auction_repository.go`:
`WHERE item_id = $1 AND status = 'active'`. -/
def GetActiveByItemID (db : DBState) (itemId : Nat) : List Auction :=
  db.auctions.filter (fun a => a.itemId == itemId && a.IsActive)

/-- Source `AuctionService.CreateAuction` from `internal/app/auction.go`, in source
order: item exists (`items` is the set of provisioned item ids), user
exists, both instants parse, `start_time` not before `now`, `end_time` not
before `start_time`, positive starting price, no active auction on the
item; then the auction row is created with status `active` and
`current_price = starting_price`. -/
def CreateAuction (db : DBState) (items users : List Nat)
    (req : CreateAuctionRequest) (now : Int) (newId : Nat) :
    Except SvcError (DBState × Auction) :=
  if items.contains req.itemId = false then .error .ItemNotFound
  else if users.contains req.creatorId = false then .error .UserNotFound
  else
    match req.startTime with
    | none => .error .InvalidTimeFormat
    | some startTime =>
      match req.endTime with
      | none => .error .InvalidTimeFormat
      | some endTime =>
        if startTime < now then .error .InvalidStartTime
        else if endTime < startTime then .error .InvalidEndTime
        else if req.startingPrice ≤ 0 then .error .InvalidStartingPrice
        else if (GetActiveByItemID db req.itemId).length > 0 then
          .error .ItemAlreadyInAuction
        else
          let auction : Auction :=
            ⟨newId, req.itemId, req.creatorId, startTime, endTime,
             req.startingPrice, req.startingPrice, AuctionStatus.active,
             now, now⟩
          .ok ({ db with auctions := db.auctions ++ [auction] }, auction)

/-- The row transformer of the repository update
`UPDATE auctions SET ... WHERE id = $1`. -/
def replaceRow (a : Auction) (row : Auction) : Auction :=
  if row.id == a.id then a else row

/-- Source `AuctionRepository.Update`: `UPDATE auctions SET ... WHERE id = $1`,
failing `AuctionNotFound` when no row is affected. -/
def AuctionRepoUpdate (db : DBState) (a : Auction) : Except SvcError DBState :=
  if db.auctions.any (fun row => row.id == a.id) then
    .ok { db with auctions := db.auctions.map (replaceRow a) }
  else .error .AuctionNotFound

/-- Source `shared.AuctionEndResult`. -/
structure AuctionEndResult where
  auctionId : Nat
  status : AuctionStatus
  winnerId : Option Nat
  finalPrice : Option Int
deriving DecidableEq, Repr

/-- Source `AuctionService.endAuctionWithResult` from `internal/app/auction.go`:
load the auction (error when absent), return `AuctionAlreadyEnded` when
`IsEnded` (status `ended`), otherwise mark it ended, read the highest
accepted bid for the winner fields (a lookup failure is ignored in the
source), persist through the repository update and return the result. -/
def endAuctionWithResult (db : DBState) (aid : Nat) (now : Int) :
    Except SvcError (AuctionEndResult × DBState) :=
  match findAuction db aid with
  | none => .error .AuctionNotFound
  | some auction =>
    if auction.IsEnded then .error .AuctionAlreadyEnded
    else
      let ended := auction.EndAuction now
      let highestBid := GetHighestBid db aid
      let result : AuctionEndResult :=
        ⟨aid, ended.status, highestBid.map (·.userId), highestBid.map (·.amount)⟩
      match AuctionRepoUpdate db ended with
      | .error e => .error e
      | .ok db' => .ok (result, db')

/-- Redis `ZREM` on the `auction:expirations` ordered set: remove the member
(ordered-set members are unique, so removal by value). -/
def zrem (ti : List Nat) (aid : Nat) : List Nat :=
  ti.filter (fun x => x != aid)

/-- The expiration worker's `endAuction` step (scheduler adapter): it calls
`EndAuctionForScheduler` and removes the timer-index entry with a deferred
`ZRem` that runs on every exit path; on a finalization error it returns
without publishing, otherwise it publishes the `AuctionEnded` event.
Returns the new timer index, the new store state and the published event,
if any. -/
def schedulerEndAuction (ti : List Nat) (db : DBState) (aid : Nat) (now : Int) :
    List Nat × DBState × Option Event :=
  match endAuctionWithResult db aid now with
  | .error _ => (zrem ti aid, db, none)
  | .ok (result, db') =>
    (zrem ti aid, db',
     some ⟨EventType.AuctionEnded, aid, none, none, none,
           result.winnerId, result.finalPrice, now⟩)

/-- A SQL index declaration of the persistent schema. -/
structure SqlIndex where
  name : String
  table : String
  columns : List String
  unique : Bool
  whereStatus : Option AuctionStatus
deriving DecidableEq, Repr

/-- The schema's index on active items, transcribed from the schema file:
`CREATE INDEX IF NOT EXISTS idx_auctions_item_status
 ON auctions(item_id, status) WHERE status = 'active'`.
A plain `CREATE INDEX`, not `CREATE UNIQUE INDEX`. -/
def idx_auctions_item_status : SqlIndex :=
  ⟨"idx_auctions_item_status", "auctions", ["item_id", "status"],
   false, some AuctionStatus.active⟩

/-- Client frame types, from `internal/adapters/ws/messages.go`. -/
inductive MessageType
  | subscribe
  | unsubscribe
  | placeBid
  | createAuction
  | getAuction
  | listAuctions
  | ping
deriving DecidableEq, Repr

/-- The fields of a client frame's `data` object that the validator and the
handlers read.  A numeric field is `none` when the key is absent or its
value is not a JSON number (the Go type assertion `.(float64)` fails);
`limit` and `offset` hold the value after the handler's `int(...)`
truncation. -/
structure ClientMessageData where
  amount : Option Int
  itemId : Option String
  startTime : Option String
  endTime : Option String
  startingPrice : Option Int
  limit : Option Int
  offset : Option Int
deriving DecidableEq, Repr

/-- A parsed client frame.  `auctionId = none` models both an absent
`auction_id` and the nil UUID, which `validateAuctionID` rejects alike. -/
structure ClientMessage where
  type : MessageType
  auctionId : Option Nat
  data : ClientMessageData
  timestamp : Int
deriving DecidableEq, Repr

/-- Source `ClientMessage.validateAuctionID`. -/
def validateAuctionID (m : ClientMessage) : Except SvcError Unit :=
  match m.auctionId with
  | none => .error .AuctionIDRequired
  | some _ => .ok ()

/-- Source `ClientMessage.Validate` from `internal/adapters/ws/messages.go`:
`subscribe`/`unsubscribe`/`get_auction` need an auction id; `place_bid`
needs an auction id and a positive numeric `data.amount`; `create_auction`
needs the four creation fields present; `list_auctions` and `ping` are
accepted without any constraint on their payload. -/
def validateClientMessage (m : ClientMessage) : Except SvcError Unit :=
  match m.type with
  | .subscribe => validateAuctionID m
  | .unsubscribe => validateAuctionID m
  | .placeBid =>
    match validateAuctionID m with
    | .error e => .error e
    | .ok () =>
      match m.data.amount with
      | none => .error .InvalidAmount
      | some amount => if amount ≤ 0 then .error .InvalidAmount else .ok ()
  | .createAuction =>
    if m.data.itemId = none then .error .ItemIDRequired
    else if m.data.startTime = none then .error .StartTimeRequired
    else if m.data.endTime = none then .error .EndTimeRequired
    else if m.data.startingPrice = none then .error .StartingPriceRequired
    else .ok ()
  | .getAuction => validateAuctionID m
  | .listAuctions => .ok ()
  | .ping => .ok ()

/-- Go integer division as used in the handler: `offset / limit` panics when
the divisor is zero; `none` models the panic (the handling goroutine dies
and no response is produced).  For a non-zero divisor Go truncates toward
zero, as `Int.tdiv` does. -/
def goIntDiv (a b : Int) : Option Int :=
  if b = 0 then none else some (Int.tdiv a b)

/-- The page computation of `handleListAuctions` in
`internal/adapters/ws/handler.go`: `limit` defaults to 10 and `offset` to 0
when absent, then `Page := offset/limit + 1`, `PageSize := limit`.  The
result is `none` exactly when the division panics. -/
def handleListAuctionsPage (m : ClientMessage) : Option (Int × Int) :=
  let limit : Int := match m.data.limit with | some v => v | none => 10
  let offset : Int := match m.data.offset with | some v => v | none => 0
  match goIntDiv offset limit with
  | none => none
  | some q => some (q + 1, limit)

/-- One serialized bid-admission attempt against the store: the committed
state on success, the unchanged state on a rolled-back transaction.  An
attempt is a candidate bid together with the expected price its caller
observed. -/
def applyOCC (db : DBState) (att : Bid × Int) : DBState :=
  match PlaceBidWithOCC db att.1 att.2 with
  | .ok db' => db'
  | .error _ => db

/-- A serial execution of a sequence of bid-admission attempts (the serial
order the store's conditional update produces). -/
def runOCC (db : DBState) (atts : List (Bid × Int)) : DBState :=
  atts.foldl applyOCC db

/-- State domination: every auction present in the second state was present
in the first with a current price no larger. -/
def PriceMono (db db' : DBState) : Prop :=
  ∀ (aid : Nat) (a' : Auction), findAuction db' aid = some a' →
    ∃ a, findAuction db aid = some a ∧ a.currentPrice ≤ a'.currentPrice

/-- A serial execution of admissions that all carry the same expected price
`p`, returning the final state and each attempt's outcome. -/
def occSerial (db : DBState) (p : Int) : List Bid → DBState × List (Except SvcError Unit)
  | [] => (db, [])
  | b :: rest =>
    match PlaceBidWithOCC db b p with
    | .ok db' =>
      let r := occSerial db' p rest
      (r.1, .ok () :: r.2)
    | .error e =>
      let r := occSerial db p rest
      (r.1, .error e :: r.2)

/-! ## Basic lemmas about the embedded operations -/

theorem insertBid_auctions (db : DBState) (b : Bid) :
    (insertBid db b).auctions = db.auctions := rfl

theorem condUpdateRow_id (aid : Nat) (amount ts expected : Int) (a : Auction) :
    (condUpdateRow aid amount ts expected a).id = a.id := by
  unfold condUpdateRow; split <;> rfl

theorem condUpdateRow_status (aid : Nat) (amount ts expected : Int) (a : Auction) :
    (condUpdateRow aid amount ts expected a).status = a.status := by
  unfold condUpdateRow; split <;> rfl

theorem replaceRow_id (a row : Auction) : (replaceRow a row).id = row.id := by
  unfold replaceRow
  split
  next h =>
    simp only [beq_iff_eq] at h
    exact h.symm
  next => rfl

theorem findAuction_map_condUpdate (db : DBState) (bs : List Bid) (aid2 : Nat)
    (amount ts expected : Int) (aid : Nat) :
    findAuction ⟨db.auctions.map (condUpdateRow aid2 amount ts expected), bs⟩ aid
      = (findAuction db aid).map (condUpdateRow aid2 amount ts expected) := by
  unfold findAuction
  dsimp only
  rw [List.find?_map]
  have hfun : ((fun a : Auction => a.id == aid) ∘ condUpdateRow aid2 amount ts expected)
      = (fun a : Auction => a.id == aid) := by
    funext a
    simp [Function.comp, condUpdateRow_id]
  rw [hfun]

theorem findAuction_map_replaceRow (db : DBState) (bs : List Bid) (a2 : Auction)
    (aid : Nat) :
    findAuction ⟨db.auctions.map (replaceRow a2), bs⟩ aid
      = (findAuction db aid).map (replaceRow a2) := by
  unfold findAuction
  dsimp only
  rw [List.find?_map]
  have hfun : ((fun a : Auction => a.id == aid) ∘ replaceRow a2)
      = (fun a : Auction => a.id == aid) := by
    funext a
    simp [Function.comp, replaceRow_id]
  rw [hfun]

theorem placeBidWithOCC_ok_elim {db : DBState} {b : Bid} {e : Int} {db' : DBState}
    (h : PlaceBidWithOCC db b e = .ok db') :
    ∃ a, findAuction db b.auctionId = some a
      ∧ a.status = AuctionStatus.active
      ∧ a.currentPrice = e
      ∧ e < b.amount
      ∧ db' = ⟨db.auctions.map (condUpdateRow b.auctionId b.amount b.createdAt e),
               db.bids ++ [b]⟩ := by
  unfold PlaceBidWithOCC at h
  split at h
  · simp at h
  rename_i a hf
  split at h
  · simp at h
  rename_i h1
  split at h
  · simp at h
  rename_i h2
  split at h
  · simp at h
  rename_i h3
  simp only [] at h
  split at h
  · simp at h
  rename_i h4
  have hs : a.status = AuctionStatus.active := not_not.mp h1
  have hp : a.currentPrice = e := not_not.mp h2
  have hlt : e < b.amount := hp ▸ lt_of_not_le h3
  refine ⟨a, hf, hs, hp, hlt, ?_⟩
  cases h
  rfl

theorem placeBidWithOCC_success {db : DBState} {b : Bid} {e : Int} {a : Auction}
    (hf : findAuction db b.auctionId = some a)
    (hs : a.status = AuctionStatus.active)
    (hp : a.currentPrice = e)
    (ha : e < b.amount) :
    PlaceBidWithOCC db b e =
      .ok ⟨db.auctions.map (condUpdateRow b.auctionId b.amount b.createdAt e),
           db.bids ++ [b]⟩ := by
  have hf2 : db.auctions.find? (fun x => x.id == b.auctionId) = some a := hf
  have hmem : a ∈ db.auctions := List.mem_of_find?_eq_some hf2
  have hpred0 := List.find?_some hf2
  have hpred : (a.id == b.auctionId) = true := hpred0
  have hcount :
      ¬ (conditionalUpdatePrice (insertBid db b) b.auctionId b.amount b.createdAt e).2 = 0 := by
    unfold conditionalUpdatePrice
    dsimp only [insertBid_auctions]
    rw [List.countP_eq_zero]
    intro hall
    exact hall a hmem (by simp [hpred, hp])
  simp only [PlaceBidWithOCC, hf]
  rw [if_neg (by simp [hs])]
  rw [if_neg (by simp [hp])]
  rw [if_neg (by rw [hp]; exact not_le.mpr ha)]
  rw [if_neg hcount]
  rfl

theorem placeBidWithOCC_price_mismatch {db : DBState} {b : Bid} {e : Int} {a : Auction}
    (hf : findAuction db b.auctionId = some a)
    (hs : a.status = AuctionStatus.active)
    (hp : a.currentPrice ≠ e) :
    PlaceBidWithOCC db b e = .error .BidAmountTooLow := by
  simp only [PlaceBidWithOCC, hf]
  rw [if_neg (by simp [hs])]
  rw [if_pos hp]

theorem priceMono_applyOCC (db : DBState) (att : Bid × Int) :
    PriceMono db (applyOCC db att) := by
  intro aid a' hfind
  unfold applyOCC at hfind
  cases hocc : PlaceBidWithOCC db att.1 att.2 with
  | error e =>
    rw [hocc] at hfind
    exact ⟨a', hfind, le_refl _⟩
  | ok db2 =>
    rw [hocc] at hfind
    obtain ⟨a0, hf0, hs0, hp0, hlt0, hdb2⟩ := placeBidWithOCC_ok_elim hocc
    subst hdb2
    rw [findAuction_map_condUpdate] at hfind
    obtain ⟨a1, hf1, hmap⟩ := Option.map_eq_some'.mp hfind
    refine ⟨a1, hf1, ?_⟩
    rw [← hmap]
    unfold condUpdateRow
    split
    next hcond =>
      have hpe : a1.currentPrice = att.2 := by
        have := (Bool.and_eq_true _ _).mp hcond
        simpa using this.2
      simp only []
      rw [hpe]
      exact le_of_lt hlt0
    next => exact le_refl _

theorem priceMono_runOCC (db : DBState) (atts : List (Bid × Int)) :
    PriceMono db (runOCC db atts) := by
  induction atts generalizing db with
  | nil =>
    intro aid a' h
    exact ⟨a', h, le_refl _⟩
  | cons att rest ih =>
    intro aid a' h
    have hrest : findAuction (runOCC (applyOCC db att) rest) aid = some a' := by
      simpa [runOCC] using h
    obtain ⟨am, hfm, hlem⟩ := ih (applyOCC db att) aid a' hrest
    obtain ⟨a0, hf0, hle0⟩ := priceMono_applyOCC db att aid am hfm
    exact ⟨a0, hf0, le_trans hle0 hlem⟩

/-- C3: for any auction and any serial sequence of bid-admission attempts the
auction's `current_price` is non-decreasing, every successful admission sets
the bid's auction's price to the accepted bid amount which is strictly
greater than the previous price, and the domain `UpdateCurrentPrice` helper
never lowers a price. -/
theorem price_invariant_monotonic :
    (∀ (db : DBState) (atts : List (Bid × Int)), PriceMono db (runOCC db atts))
    ∧ (∀ (db db' : DBState) (b : Bid) (e : Int) (a a' : Auction),
        PlaceBidWithOCC db b e = .ok db' →
        findAuction db b.auctionId = some a →
        findAuction db' b.auctionId = some a' →
        a'.currentPrice = b.amount ∧ a.currentPrice < b.amount)
    ∧ (∀ (a : Auction) (newPrice now : Int),
        a.currentPrice ≤ (a.UpdateCurrentPrice newPrice now).currentPrice) := by
  refine ⟨priceMono_runOCC, ?_, ?_⟩
  · intro db db' b e a a' hocc hfa hfa'
    obtain ⟨a0, hf0, hs0, hp0, hlt0, hdb⟩ := placeBidWithOCC_ok_elim hocc
    have haa0 : a = a0 := by
      rw [hfa] at hf0
      exact Option.some.inj hf0
    subst haa0
    subst hdb
    rw [findAuction_map_condUpdate, hfa] at hfa'
    have hfa2 : condUpdateRow b.auctionId b.amount b.createdAt e a = a' := by
      simpa using hfa'
    have hf2 : db.auctions.find? (fun x => x.id == b.auctionId) = some a := hfa
    have hpred0 := List.find?_some hf2
    have hpred : (a.id == b.auctionId) = true := hpred0
    have hcond : (a.id == b.auctionId && a.currentPrice == e) = true := by
      simp [hpred, hp0]
    constructor
    · rw [← hfa2]
      unfold condUpdateRow
      rw [if_pos hcond]
    · rw [hp0]
      exact hlt0
  · intro a newPrice now
    unfold Auction.UpdateCurrentPrice
    split
    next h => exact le_of_lt h
    next => exact le_refl _

/-- Witness for `price_invariant_monotonic` at a concrete one-step run. -/
theorem price_invariant_monotonic_witness :
    ∃ a, findAuction ⟨[⟨1, 2, 3, 0, 100, 100, 100, AuctionStatus.active, 0, 0⟩], []⟩ 1 = some a
      ∧ a.currentPrice ≤ 150 := by
  have h := price_invariant_monotonic.1
      ⟨[⟨1, 2, 3, 0, 100, 100, 100, AuctionStatus.active, 0, 0⟩], []⟩
      [(⟨10, 1, 4, 150, BidStatus.accepted, 5, 5⟩, 100)] 1
      ⟨1, 2, 3, 0, 100, 100, 150, AuctionStatus.active, 0, 5⟩ rfl
  obtain ⟨a, hf, hle⟩ := h
  exact ⟨a, hf, hle⟩

theorem occSerial_all_fail {db : DBState} {p : Int} {aid : Nat} {a : Auction}
    (hf : findAuction db aid = some a)
    (hs : a.status = AuctionStatus.active)
    (hp : a.currentPrice ≠ p)
    (bs : List Bid) (hall : ∀ x ∈ bs, x.auctionId = aid) :
    occSerial db p bs = (db, bs.map (fun _ => .error .BidAmountTooLow)) := by
  induction bs with
  | nil => rfl
  | cons b rest ih =>
    have hb : b.auctionId = aid := hall b (by simp)
    have hfail : PlaceBidWithOCC db b p = .error .BidAmountTooLow :=
      placeBidWithOCC_price_mismatch (by rw [hb]; exact hf) hs hp
    have hrest := ih (fun x hx => hall x (by simp [hx]))
    simp [occSerial, hfail, hrest]

/-- C2: from a state where the bid's auction is active with current price
`p`, a serial execution of admissions that all carry the same expected
price `p` (and whose candidate amounts exceed `p`, as every candidate that
passed the service's validation against the price it read does) lets
exactly the first admission succeed, fails every other one with
`BidAmountTooLow`, and makes the winner's amount the auction's new
current price. -/
theorem occ_no_lost_update (db : DBState) (aid : Nat) (a : Auction) (p : Int)
    (b : Bid) (rest : List Bid)
    (hf : findAuction db aid = some a)
    (hs : a.status = AuctionStatus.active)
    (hp : a.currentPrice = p)
    (hall : ∀ x ∈ b :: rest, x.auctionId = aid ∧ p < x.amount) :
    (occSerial db p (b :: rest)).2
        = .ok () :: rest.map (fun _ => .error .BidAmountTooLow)
      ∧ ∃ a', findAuction (occSerial db p (b :: rest)).1 aid = some a'
        ∧ a'.currentPrice = b.amount := by
  obtain ⟨hbaid, hbamt⟩ := hall b (by simp)
  have hfb : findAuction db b.auctionId = some a := by rw [hbaid]; exact hf
  have hsucc := placeBidWithOCC_success hfb hs hp hbamt
  set db1 : DBState :=
    ⟨db.auctions.map (condUpdateRow b.auctionId b.amount b.createdAt p),
     db.bids ++ [b]⟩ with hdb1
  have hf2 : db.auctions.find? (fun x => x.id == b.auctionId) = some a := hfb
  have hpred0 := List.find?_some hf2
  have hpred : (a.id == b.auctionId) = true := hpred0
  have hcond : (a.id == b.auctionId && a.currentPrice == p) = true := by
    simp [hpred, hp]
  have hfind1 : findAuction db1 aid
      = some { a with currentPrice := b.amount, updatedAt := b.createdAt } := by
    rw [hdb1, findAuction_map_condUpdate]
    rw [← hbaid, hfb]
    unfold condUpdateRow
    simp only [Option.map_some']
    rw [if_pos hcond]
  have hane : ({ a with currentPrice := b.amount, updatedAt := b.createdAt } : Auction).currentPrice ≠ p := by
    simp only []
    exact ne_of_gt hbamt
  have hrest := occSerial_all_fail hfind1
    (by simp only []; exact hs) hane rest (fun x hx => (hall x (by simp [hx])).1)
  have hser : occSerial db p (b :: rest)
      = ((occSerial db1 p rest).1, .ok () :: (occSerial db1 p rest).2) := by
    simp only [occSerial, hsucc]
  rw [hser, hrest]
  exact ⟨rfl, ⟨_, hfind1, rfl⟩⟩

/-- Witness for `occ_no_lost_update`: two admissions both expecting price
100; the first (150) wins, the second (160) loses. -/
theorem occ_no_lost_update_witness :
    (occSerial ⟨[⟨1, 2, 3, 0, 100, 100, 100, AuctionStatus.active, 0, 0⟩], []⟩ 100
        [⟨10, 1, 4, 150, BidStatus.accepted, 5, 5⟩,
         ⟨11, 1, 6, 160, BidStatus.accepted, 6, 6⟩]).2
      = [.ok (), .error .BidAmountTooLow]
    ∧ ∃ a', findAuction
        (occSerial ⟨[⟨1, 2, 3, 0, 100, 100, 100, AuctionStatus.active, 0, 0⟩], []⟩ 100
          [⟨10, 1, 4, 150, BidStatus.accepted, 5, 5⟩,
           ⟨11, 1, 6, 160, BidStatus.accepted, 6, 6⟩]).1 1 = some a'
      ∧ a'.currentPrice = 150 := by
  exact occ_no_lost_update
    ⟨[⟨1, 2, 3, 0, 100, 100, 100, AuctionStatus.active, 0, 0⟩], []⟩ 1
    ⟨1, 2, 3, 0, 100, 100, 100, AuctionStatus.active, 0, 0⟩ 100
    ⟨10, 1, 4, 150, BidStatus.accepted, 5, 5⟩
    [⟨11, 1, 6, 160, BidStatus.accepted, 6, 6⟩]
    rfl rfl rfl (by decide)

/-- C1: the OCC admission transaction behaves exactly as specified, case by
case: no auction row gives `AuctionNotFound`; a non-active status gives
`AuctionNotAcceptingBids`; a stored price different from the expected price
gives `BidAmountTooLow`; an amount not above the stored price gives
`BidAmountTooLow`; otherwise the bid row is inserted and the conditional
price update runs, failing `BidAmountTooLow` when it affects zero rows and
committing the updated state otherwise. -/
theorem occ_admission_cases (db : DBState) (b : Bid) (e : Int) :
    (findAuction db b.auctionId = none →
      PlaceBidWithOCC db b e = .error .AuctionNotFound)
    ∧ (∀ a, findAuction db b.auctionId = some a →
      a.status ≠ AuctionStatus.active →
      PlaceBidWithOCC db b e = .error .AuctionNotAcceptingBids)
    ∧ (∀ a, findAuction db b.auctionId = some a →
      a.status = AuctionStatus.active → a.currentPrice ≠ e →
      PlaceBidWithOCC db b e = .error .BidAmountTooLow)
    ∧ (∀ a, findAuction db b.auctionId = some a →
      a.status = AuctionStatus.active → a.currentPrice = e →
      b.amount ≤ a.currentPrice →
      PlaceBidWithOCC db b e = .error .BidAmountTooLow)
    ∧ (∀ a, findAuction db b.auctionId = some a →
      a.status = AuctionStatus.active → a.currentPrice = e →
      a.currentPrice < b.amount →
      ((conditionalUpdatePrice (insertBid db b) b.auctionId b.amount b.createdAt e).2 = 0 →
        PlaceBidWithOCC db b e = .error .BidAmountTooLow)
      ∧ ((conditionalUpdatePrice (insertBid db b) b.auctionId b.amount b.createdAt e).2 ≠ 0 →
        PlaceBidWithOCC db b e =
          .ok (conditionalUpdatePrice (insertBid db b) b.auctionId b.amount
            b.createdAt e).1)) := by
  refine ⟨?_, ?_, ?_, ?_, ?_⟩
  · intro hf
    simp [PlaceBidWithOCC, hf]
  · intro a hf hs
    simp only [PlaceBidWithOCC, hf]
    rw [if_pos hs]
  · intro a hf hs hp
    exact placeBidWithOCC_price_mismatch hf hs hp
  · intro a hf hs hp hle
    simp only [PlaceBidWithOCC, hf]
    rw [if_neg (by simp [hs])]
    rw [if_neg (by simp [hp])]
    rw [if_pos hle]
  · intro a hf hs hp hlt
    constructor
    · intro hzero
      simp only [PlaceBidWithOCC, hf]
      rw [if_neg (by simp [hs])]
      rw [if_neg (by simp [hp])]
      rw [if_neg (not_le.mpr hlt)]
      rw [if_pos hzero]
    · intro hnz
      simp only [PlaceBidWithOCC, hf]
      rw [if_neg (by simp [hs])]
      rw [if_neg (by simp [hp])]
      rw [if_neg (not_le.mpr hlt)]
      rw [if_neg hnz]

/-- Witness for `occ_admission_cases`: a bid against an absent auction fails
`AuctionNotFound`. -/
theorem occ_admission_cases_witness :
    PlaceBidWithOCC ⟨[], []⟩ ⟨10, 1, 4, 150, BidStatus.accepted, 5, 5⟩ 100 =
      .error .AuctionNotFound := by
  exact (occ_admission_cases ⟨[], []⟩ ⟨10, 1, 4, 150, BidStatus.accepted, 5, 5⟩ 100).1 rfl

/-- C4 counterexample: at the start boundary `now = start_time = 5` — with
the session subscribed, the auction active, the user present, and the
amount valid and above the current highest, so that every other check
passes — the code rejects the bid with `AuctionNotStarted`, although the
claim's non-strict check (3) (`now ≥ start_time`) proceeds past that check
at this input.  The second conjunct records that the auction's
`start_time` is indeed not after `now`. -/
theorem placeBid_start_boundary_counterexample :
    PlaceBid ⟨[⟨1, 2, 3, 5, 100, 100, 100, AuctionStatus.active, 0, 0⟩], []⟩
      ⟨[(1, "c")], []⟩ [4] ⟨1, 4, "c", 150⟩ 5 10 = .error .AuctionNotStarted
    ∧ (⟨1, 2, 3, 5, 100, 100, 100, AuctionStatus.active, 0, 0⟩ : Auction).startTime ≤ 5 :=
  ⟨rfl, by decide⟩

/-- C4 (amended): the bid service checks its preconditions in the specified
order with first failure winning, where check (3) is the code's strict
`AuctionStarted` test (`start_time < now`; at `now = start_time` the bid is
rejected with `AuctionNotStarted`, see the counterexample); each conjunct
states that when every earlier check passes and a check fails, the result
is exactly that check's rejection, so no later rejection can be produced
when an earlier check fails. -/
theorem placeBid_precondition_order (db : DBState) (bus : BusState)
    (users : List Nat) (req : PlaceBidRequest) (now : Int) (nid : Nat) :
    (isSubscribed bus req.auctionId req.clientId = false →
      PlaceBid db bus users req now nid = .error .UserNotSubscribed)
    ∧ (isSubscribed bus req.auctionId req.clientId = true →
      findAuction db req.auctionId = none →
      PlaceBid db bus users req now nid = .error .AuctionNotFound)
    ∧ (∀ a, isSubscribed bus req.auctionId req.clientId = true →
      findAuction db req.auctionId = some a →
      a.CanBid = false →
      PlaceBid db bus users req now nid = .error .AuctionNotAcceptingBids)
    ∧ (∀ a, isSubscribed bus req.auctionId req.clientId = true →
      findAuction db req.auctionId = some a →
      a.CanBid = true → a.AuctionStarted now = false →
      PlaceBid db bus users req now nid = .error .AuctionNotStarted)
    ∧ (∀ a, isSubscribed bus req.auctionId req.clientId = true →
      findAuction db req.auctionId = some a →
      a.CanBid = true → a.AuctionStarted now = true →
      users.contains req.userId = false →
      PlaceBid db bus users req now nid = .error .UserNotFound)
    ∧ (∀ a, isSubscribed bus req.auctionId req.clientId = true →
      findAuction db req.auctionId = some a →
      a.CanBid = true → a.AuctionStarted now = true →
      users.contains req.userId = true → req.amount ≤ 0 →
      PlaceBid db bus users req now nid = .error .BidAmountInvalid)
    ∧ (∀ a hb, isSubscribed bus req.auctionId req.clientId = true →
      findAuction db req.auctionId = some a →
      a.CanBid = true → a.AuctionStarted now = true →
      users.contains req.userId = true → 0 < req.amount →
      GetHighestBid db req.auctionId = some hb → req.amount ≤ hb.amount →
      PlaceBid db bus users req now nid = .error .BidAmountTooLow)
    ∧ (∀ a, isSubscribed bus req.auctionId req.clientId = true →
      findAuction db req.auctionId = some a →
      a.CanBid = true → a.AuctionStarted now = true →
      users.contains req.userId = true → 0 < req.amount →
      GetHighestBid db req.auctionId = none → req.amount ≤ a.startingPrice →
      PlaceBid db bus users req now nid = .error .BidAmountBelowStarting) := by
  refine ⟨?_, ?_, ?_, ?_, ?_, ?_, ?_, ?_⟩
  · intro h1
    simp only [PlaceBid]
    rw [if_pos h1]
  · intro h1 hf
    simp only [PlaceBid, hf]
    rw [if_neg (by simp [h1])]
  · intro a h1 hf hcb
    simp only [PlaceBid, hf]
    rw [if_neg (by simp [h1])]
    rw [if_pos hcb]
  · intro a h1 hf hcb hst
    simp only [PlaceBid, hf]
    rw [if_neg (by simp [h1])]
    rw [if_neg (by simp [hcb])]
    rw [if_pos hst]
  · intro a h1 hf hcb hst hu
    simp only [PlaceBid, hf]
    rw [if_neg (by simp [h1])]
    rw [if_neg (by simp [hcb])]
    rw [if_neg (by simp [hst])]
    rw [if_pos hu]
  · intro a h1 hf hcb hst hu hamt
    have hmem : req.userId ∈ users := by simpa using hu
    simp only [PlaceBid, hf]
    rw [if_neg (by simp [h1])]
    rw [if_neg (by simp [hcb])]
    rw [if_neg (by simp [hst])]
    rw [if_neg (by simp [hmem])]
    rw [if_pos hamt]
  · intro a hb h1 hf hcb hst hu hamt hhb hle
    have hmem : req.userId ∈ users := by simpa using hu
    simp only [PlaceBid, hf, hhb]
    rw [if_neg (by simp [h1])]
    rw [if_neg (by simp [hcb])]
    rw [if_neg (by simp [hst])]
    rw [if_neg (by simp [hmem])]
    rw [if_neg (not_le.mpr hamt)]
    rw [if_pos (by simp [hle])]
  · intro a h1 hf hcb hst hu hamt hhb hble
    have hmem : req.userId ∈ users := by simpa using hu
    simp only [PlaceBid, hf, hhb]
    rw [if_neg (by simp [h1])]
    rw [if_neg (by simp [hcb])]
    rw [if_neg (by simp [hst])]
    rw [if_neg (by simp [hmem])]
    rw [if_neg (not_le.mpr hamt)]
    rw [if_neg (by simp)]
    rw [if_pos (by simp [hble])]

/-- Witness for `placeBid_precondition_order`: an unsubscribed session is
rejected with `NotSubscribed`. -/
theorem placeBid_precondition_order_witness :
    PlaceBid ⟨[], []⟩ ⟨[], []⟩ [] ⟨1, 4, "c", 150⟩ 10 10 =
      .error .UserNotSubscribed := by
  exact (placeBid_precondition_order ⟨[], []⟩ ⟨[], []⟩ [] ⟨1, 4, "c", 150⟩ 10 10).1 rfl

theorem subscribeBus_published (bus : BusState) (aid : Nat) (cid : String) :
    (subscribeBus bus aid cid).published = bus.published := by
  unfold subscribeBus
  split <;> rfl

theorem isSubscribed_subscribeBus (bus : BusState) (aid : Nat) (cid : String)
    (a2 : Nat) (c2 : String) (h : isSubscribed bus aid cid = true) :
    isSubscribed (subscribeBus bus a2 c2) aid cid = true := by
  unfold subscribeBus
  split
  · exact h
  · unfold isSubscribed at h ⊢
    simp only [List.any_cons, Bool.or_eq_true]
    exact Or.inr h

theorem placeBid_ok_elim {db : DBState} {bus : BusState} {users : List Nat}
    {req : PlaceBidRequest} {now : Int} {nid : Nat}
    {db' : DBState} {bus' : BusState} {b : Bid}
    (h : PlaceBid db bus users req now nid = .ok (db', bus', b)) :
    isSubscribed bus req.auctionId req.clientId = true
    ∧ b = ⟨nid, req.auctionId, req.userId, req.amount, BidStatus.accepted, now, now⟩
    ∧ bus' = publishBus (subscribeBus bus req.auctionId (userKey req.userId))
        ⟨EventType.BidPlaced, req.auctionId, some nid, some req.userId,
         some req.amount, none, none, now⟩ := by
  unfold PlaceBid at h
  split at h
  · simp at h
  rename_i hns
  have hsub : isSubscribed bus req.auctionId req.clientId = true := by
    revert hns
    cases isSubscribed bus req.auctionId req.clientId <;> simp
  split at h
  · simp at h
  rename_i auction hf
  split at h
  · simp at h
  rename_i hcb
  split at h
  · simp at h
  rename_i hst
  split at h
  · simp at h
  rename_i hu
  split at h
  · simp at h
  rename_i hamt
  dsimp only [] at h
  split at h
  · simp at h
  rename_i hhigh
  split at h
  · simp at h
  rename_i hstart
  split at h
  · simp at h
  rename_i db2 hocc
  simp only [Except.ok.injEq, Prod.mk.injEq] at h
  exact ⟨hsub, h.2.2.symm, h.2.1.symm⟩

/-- C9: after every successful bid admission the caller's session (the
request's `client_id`) is subscribed on the bus to the bid's auction, a
`BidPlaced` event for that auction has been published, and the subscribe
operation is idempotent (already-subscribed is not an error and changes
nothing). -/
theorem placeBid_success_subscription_publish :
    (∀ (db : DBState) (bus : BusState) (users : List Nat) (req : PlaceBidRequest)
        (now : Int) (nid : Nat) (db' : DBState) (bus' : BusState) (b : Bid),
      PlaceBid db bus users req now nid = .ok (db', bus', b) →
        isSubscribed bus' req.auctionId req.clientId = true
        ∧ ∃ e ∈ bus'.published, e.type = EventType.BidPlaced ∧ e.auctionId = req.auctionId)
    ∧ ∀ (bus : BusState) (aid : Nat) (cid : String),
        isSubscribed bus aid cid = true → subscribeBus bus aid cid = bus := by
  constructor
  · intro db bus users req now nid db' bus' b h
    obtain ⟨hsub, hb, hbus⟩ := placeBid_ok_elim h
    subst hbus
    constructor
    · show isSubscribed (subscribeBus bus req.auctionId (userKey req.userId))
        req.auctionId req.clientId = true
      exact isSubscribed_subscribeBus bus req.auctionId req.clientId _ _ hsub
    · refine ⟨⟨EventType.BidPlaced, req.auctionId, some nid, some req.userId,
        some req.amount, none, none, now⟩, ?_, rfl, rfl⟩
      show _ ∈ (publishBus _ _).published
      unfold publishBus
      simp [subscribeBus_published]
  · intro bus aid cid h
    unfold subscribeBus
    rw [if_pos h]

/-- Witness for `placeBid_success_subscription_publish` at a concrete
successful admission. -/
theorem placeBid_success_subscription_publish_witness :
    isSubscribed ⟨[(1, "4"), (1, "c")],
        [⟨EventType.BidPlaced, 1, some 10, some 4, some 150, none, none, 5⟩]⟩ 1 "c" = true
    ∧ ∃ e ∈ (⟨[(1, "4"), (1, "c")],
        [⟨EventType.BidPlaced, 1, some 10, some 4, some 150, none, none, 5⟩]⟩ : BusState).published,
      e.type = EventType.BidPlaced ∧ e.auctionId = 1 := by
  exact placeBid_success_subscription_publish.1
    ⟨[⟨1, 2, 3, 0, 100, 100, 100, AuctionStatus.active, 0, 0⟩], []⟩
    ⟨[(1, "c")], []⟩ [4] ⟨1, 4, "c", 150⟩ 5 10
    ⟨[⟨1, 2, 3, 0, 100, 100, 150, AuctionStatus.active, 0, 5⟩],
     [⟨10, 1, 4, 150, BidStatus.accepted, 5, 5⟩]⟩
    ⟨[(1, "4"), (1, "c")],
     [⟨EventType.BidPlaced, 1, some 10, some 4, some 150, none, none, 5⟩]⟩
    ⟨10, 1, 4, 150, BidStatus.accepted, 5, 5⟩ rfl

/-- C5 counterexample: finalizing an auction whose status is `cancelled`
(a terminal status) does not return `AlreadyEnded`; it succeeds and mutates
the durable state, transitioning the cancelled auction to `ended`. -/
theorem finalize_cancelled_counterexample :
    endAuctionWithResult ⟨[⟨1, 2, 3, 0, 10, 100, 100, AuctionStatus.cancelled, 0, 0⟩], []⟩ 1 7 =
      .ok (⟨1, AuctionStatus.ended, none, none⟩,
           ⟨[⟨1, 2, 3, 0, 10, 100, 100, AuctionStatus.ended, 0, 7⟩], []⟩) := by
  rfl

theorem endAuction_ok_elim {db : DBState} {aid : Nat} {now : Int}
    {res : AuctionEndResult} {db' : DBState}
    (h : endAuctionWithResult db aid now = .ok (res, db')) :
    ∃ a, findAuction db aid = some a
      ∧ a.IsEnded = false
      ∧ res = ⟨aid, AuctionStatus.ended,
          (GetHighestBid db aid).map (·.userId), (GetHighestBid db aid).map (·.amount)⟩
      ∧ db' = { db with auctions := db.auctions.map (replaceRow (a.EndAuction now)) } := by
  unfold endAuctionWithResult at h
  split at h
  · simp at h
  rename_i a hf
  split at h
  · simp at h
  rename_i hnotEnded
  unfold AuctionRepoUpdate at h
  dsimp only [] at h
  split at h
  · simp at h
  rename_i db2 heq
  simp only [Except.ok.injEq, Prod.mk.injEq] at h
  split at heq
  · rename_i hany
    simp only [Except.ok.injEq] at heq
    refine ⟨a, hf, by simpa using hnotEnded, ?_, ?_⟩
    · rw [← h.1]
      rfl
    · rw [← h.2, ← heq]
  · simp at heq

/-- C5 amended: finalization returns `AlreadyEnded` and leaves the durable
state unchanged exactly for auctions whose status is `ended` (the only
status `IsEnded` recognises); a `cancelled` auction is not protected and is
transitioned to `ended`.  Every successful finalization leaves the auction
in status `ended`, and a second finalization of the same auction then
returns `AlreadyEnded`, so an auction transitions into `ended` at most
once. -/
theorem finalize_terminal_amended (db : DBState) (aid : Nat) (now : Int) :
    (∀ a, findAuction db aid = some a → a.status = AuctionStatus.ended →
      endAuctionWithResult db aid now = .error .AuctionAlreadyEnded)
    ∧ (∀ res db', endAuctionWithResult db aid now = .ok (res, db') →
      res.status = AuctionStatus.ended
      ∧ ∃ a', findAuction db' aid = some a' ∧ a'.status = AuctionStatus.ended)
    ∧ (∀ res db' now2, endAuctionWithResult db aid now = .ok (res, db') →
      endAuctionWithResult db' aid now2 = .error .AuctionAlreadyEnded) := by
  refine ⟨?_, ?_, ?_⟩
  · intro a hf hs
    simp only [endAuctionWithResult, hf]
    rw [if_pos (by simp [Auction.IsEnded, hs])]
  · intro res db' h
    obtain ⟨a, hf, hne, hres, hdb⟩ := endAuction_ok_elim h
    refine ⟨by rw [hres], ?_⟩
    subst hdb
    refine ⟨a.EndAuction now, ?_, rfl⟩
    rw [findAuction_map_replaceRow db db.bids (a.EndAuction now) aid, hf]
    simp only [Option.map_some']
    unfold replaceRow
    rw [if_pos (by simp [Auction.EndAuction])]
  · intro res db' now2 h
    obtain ⟨a, hf, hne, hres, hdb⟩ := endAuction_ok_elim h
    subst hdb
    have hf2 : findAuction
        { db with auctions := db.auctions.map (replaceRow (a.EndAuction now)) } aid
        = some (a.EndAuction now) := by
      rw [findAuction_map_replaceRow db db.bids (a.EndAuction now) aid, hf]
      simp only [Option.map_some']
      unfold replaceRow
      rw [if_pos (by simp [Auction.EndAuction])]
    simp only [endAuctionWithResult, hf2]
    rw [if_pos (by simp [Auction.IsEnded, Auction.EndAuction])]

/-- Witness for `finalize_terminal_amended`: finalizing an already ended
auction returns `AlreadyEnded`. -/
theorem finalize_terminal_amended_witness :
    endAuctionWithResult ⟨[⟨1, 2, 3, 0, 10, 100, 100, AuctionStatus.ended, 0, 0⟩], []⟩ 1 5 =
      .error .AuctionAlreadyEnded := by
  exact (finalize_terminal_amended
      ⟨[⟨1, 2, 3, 0, 10, 100, 100, AuctionStatus.ended, 0, 0⟩], []⟩ 1 5).1
    ⟨1, 2, 3, 0, 10, 100, 100, AuctionStatus.ended, 0, 0⟩ rfl rfl

/-- C6 counterexample: a finalization that fails with `AuctionNotFound`
(not an already-terminal outcome) still has its timer-index entry removed
by the worker step, so it is not retried on a later tick. -/
theorem scheduler_removal_on_failure_counterexample :
    schedulerEndAuction [5] ⟨[], []⟩ 5 0 = ([], ⟨[], []⟩, none)
    ∧ endAuctionWithResult ⟨[], []⟩ 5 0 = .error .AuctionNotFound := ⟨rfl, rfl⟩

/-- C6 amended: the worker's `endAuction` step removes the auction's
timer-index entry unconditionally (the removal is deferred and runs on
every exit path), and on a finalization error it returns without
publishing and without retaining the entry. -/
theorem scheduler_unconditional_removal (ti : List Nat) (db : DBState)
    (aid : Nat) (now : Int) :
    (schedulerEndAuction ti db aid now).1 = zrem ti aid
    ∧ (∀ e, endAuctionWithResult db aid now = .error e →
        schedulerEndAuction ti db aid now = (zrem ti aid, db, none)) := by
  constructor
  · unfold schedulerEndAuction
    split <;> rfl
  · intro e he
    unfold schedulerEndAuction
    rw [he]

/-- Witness for `scheduler_unconditional_removal`: the entry for auction 5
is removed although its finalization failed. -/
theorem scheduler_unconditional_removal_witness :
    schedulerEndAuction [5, 9] ⟨[], []⟩ 5 0 = ([9], ⟨[], []⟩, none) := by
  exact (scheduler_unconditional_removal [5, 9] ⟨[], []⟩ 5 0).2 .AuctionNotFound rfl

/-- C7 counterexample: the schema's active-item index is not a unique
index, and it covers `(item_id, status)` rather than `(item_id)` alone, so
the persistent layout does not enforce at-most-one active auction per
item. -/
theorem active_item_index_counterexample :
    idx_auctions_item_status.unique = false
    ∧ idx_auctions_item_status.columns = ["item_id", "status"] := ⟨rfl, rfl⟩

/-- C7 amended: a creation request for an item that already has an active
auction fails with `ItemAlreadyInAuction` (once the earlier validations
pass) and creates nothing; the schema's `idx_auctions_item_status` is a
partial (`WHERE status = active`) but non-unique index, so the invariant
is enforced only by this application-level check. -/
theorem unique_active_item_amended :
    (∀ (db : DBState) (items users : List Nat) (req : CreateAuctionRequest)
        (now : Int) (nid : Nat) (st et : Int),
      items.contains req.itemId = true → users.contains req.creatorId = true →
      req.startTime = some st → req.endTime = some et →
      now ≤ st → st ≤ et → 0 < req.startingPrice →
      GetActiveByItemID db req.itemId ≠ [] →
      CreateAuction db items users req now nid = .error .ItemAlreadyInAuction)
    ∧ idx_auctions_item_status.unique = false
    ∧ idx_auctions_item_status.whereStatus = some AuctionStatus.active := by
  refine ⟨?_, rfl, rfl⟩
  intro db items users req now nid st et hit hu hst het hn hse hp hact
  have hitm : req.itemId ∈ items := by simpa using hit
  have hum : req.creatorId ∈ users := by simpa using hu
  simp only [CreateAuction, hst, het]
  rw [if_neg (by simp [hitm])]
  rw [if_neg (by simp [hum])]
  rw [if_neg (not_lt.mpr hn)]
  rw [if_neg (not_lt.mpr hse)]
  rw [if_neg (not_le.mpr hp)]
  rw [if_pos (List.length_pos.mpr hact)]

/-- Witness for `unique_active_item_amended`: creating a second auction for
item 7 while one is active fails with `ItemAlreadyInAuction`. -/
theorem unique_active_item_amended_witness :
    CreateAuction ⟨[⟨1, 7, 3, 0, 10, 100, 100, AuctionStatus.active, 0, 0⟩], []⟩ [7] [3]
      ⟨7, 3, some 5, some 6, 10⟩ 0 2 = .error .ItemAlreadyInAuction := by
  exact unique_active_item_amended.1
    ⟨[⟨1, 7, 3, 0, 10, 100, 100, AuctionStatus.active, 0, 0⟩], []⟩ [7] [3]
    ⟨7, 3, some 5, some 6, 10⟩ 0 2 5 6 rfl rfl rfl rfl
    (by decide) (by decide) (by decide) (by decide)

/-- C8 counterexample: a creation request whose parsed instants are equal
(`start_time = end_time = 5`, with `now = 0`) is admitted and creates an
auction, although the claim requires `start_time < end_time` strictly. -/
theorem create_auction_equal_times_counterexample :
    CreateAuction ⟨[], []⟩ [7] [3] ⟨7, 3, some 5, some 5, 10⟩ 0 1 =
      .ok (⟨[⟨1, 7, 3, 5, 5, 10, 10, AuctionStatus.active, 0, 0⟩], []⟩,
           ⟨1, 7, 3, 5, 5, 10, 10, AuctionStatus.active, 0, 0⟩) := by
  rfl

/-- C8 amended: creation rejects `start_time < now` with the
invalid-start-time error and `end_time < start_time` with the
invalid-end-time error, so it admits exactly `start_time ≥ now` and
`end_time ≥ start_time` (equality allowed); every auction it creates
satisfies the two non-strict inequalities. -/
theorem create_auction_time_validation_amended
    (db : DBState) (items users : List Nat) (req : CreateAuctionRequest)
    (now : Int) (nid : Nat) (st et : Int) :
    (items.contains req.itemId = true → users.contains req.creatorId = true →
      req.startTime = some st → req.endTime = some et → st < now →
      CreateAuction db items users req now nid = .error .InvalidStartTime)
    ∧ (items.contains req.itemId = true → users.contains req.creatorId = true →
      req.startTime = some st → req.endTime = some et → now ≤ st → et < st →
      CreateAuction db items users req now nid = .error .InvalidEndTime)
    ∧ (∀ db' a, CreateAuction db items users req now nid = .ok (db', a) →
      now ≤ a.startTime ∧ a.startTime ≤ a.endTime) := by
  refine ⟨?_, ?_, ?_⟩
  · intro hit hu hst het hlt
    have hitm : req.itemId ∈ items := by simpa using hit
    have hum : req.creatorId ∈ users := by simpa using hu
    simp only [CreateAuction, hst, het]
    rw [if_neg (by simp [hitm])]
    rw [if_neg (by simp [hum])]
    rw [if_pos hlt]
  · intro hit hu hst het hn hlt
    have hitm : req.itemId ∈ items := by simpa using hit
    have hum : req.creatorId ∈ users := by simpa using hu
    simp only [CreateAuction, hst, het]
    rw [if_neg (by simp [hitm])]
    rw [if_neg (by simp [hum])]
    rw [if_neg (not_lt.mpr hn)]
    rw [if_pos hlt]
  · intro db' a h
    unfold CreateAuction at h
    split at h
    · simp at h
    split at h
    · simp at h
    split at h
    · simp at h
    rename_i st0 hst0
    split at h
    · simp at h
    rename_i et0 het0
    split at h
    · simp at h
    rename_i hnlt
    split at h
    · simp at h
    rename_i hnlt2
    split at h
    · simp at h
    rename_i hple
    split at h
    · simp at h
    rename_i hactive
    simp only [Except.ok.injEq, Prod.mk.injEq] at h
    obtain ⟨hdb, ha⟩ := h
    rw [← ha]
    exact ⟨not_lt.mp hnlt, not_lt.mp hnlt2⟩

/-- Witness for `create_auction_time_validation_amended`: a start instant in
the past is rejected with the invalid-start-time error. -/
theorem create_auction_time_validation_amended_witness :
    CreateAuction ⟨[], []⟩ [7] [3] ⟨7, 3, some 0, some 10, 5⟩ 3 1 =
      .error .InvalidStartTime := by
  exact (create_auction_time_validation_amended
      ⟨[], []⟩ [7] [3] ⟨7, 3, some 0, some 10, 5⟩ 3 1 0 10).1
    rfl rfl rfl rfl (by decide)

/-- C10: a `list_auctions` frame with `data.limit = 0` passes message
validation (which constrains nothing about `list_auctions` payloads) yet
drives the page computation `offset/limit + 1` into an integer division by
zero, so the handler crashes instead of returning a response. -/
theorem list_auctions_division_by_zero :
    validateClientMessage ⟨MessageType.listAuctions, none,
      ⟨none, none, none, none, none, some 0, some 0⟩, 0⟩ = .ok ()
    ∧ handleListAuctionsPage ⟨MessageType.listAuctions, none,
      ⟨none, none, none, none, none, some 0, some 0⟩, 0⟩ = none := ⟨rfl, rfl⟩
